import Mathlib

/-!
Verification development for a coverage-guided fuzzer targeting a SAT solver
(sources: fuzzer.py, generator.py, mutator.py).

The Python code is shallowly embedded as follows.

* Python `str` values are modelled as `List Char` (`PyStr`); `bytes` as `List ℕ`.
* The process-wide seeded PRNG (`random`) is modelled as a stream of rational
  draws in `[0,1)` that is threaded explicitly through every operation:
  `random.random()` pops the head of the stream, and the integer helpers
  `random.randrange(a, b)` / `random.randint(a, b)` map one uniform draw `q`
  into the requested range as `a + ⌊q·(b-a)⌋`.  `random.choices` with weights
  computes the cumulative weights and selects the first item whose cumulative
  weight exceeds `u · total`, as CPython's bisect-based implementation does.
  A statement of the form "with probability p the code does X" is formalised
  by its realisation in the code: the corresponding draw `u` satisfies
  `u < p` exactly when the branch is taken.
* The external collaborators (the crash analyzer `analyse_program_crash` and
  the coverage oracle `get_run_coverage`) are out of scope per the spec and
  enter the model as components of a `SutEnv` environment: a response
  function for the analyzer and response streams for the subprocess runner
  and the coverage oracle.
* Crash signatures are opaque equality-comparable tokens, modelled as `ℕ`.
* Heaps (`PriorityQueue` keyed by `-coverage`) keep their element multiset as
  a list in insertion order; popping removes the first element of maximal
  coverage, matching max-heap-by-coverage behaviour with consistent ties.
* The filesystem (the output directory plus the scratch file
  `test_input.cnf`) is an association list from path to contents.
-/

/-! ## Python-style strings -/

abbrev PyStr := List Char

/-! ## The random number generator model -/

/-- Model of `random.random()`: pop the head of the draw stream (0 when the
stream is exhausted). -/
def randFloat : List ℚ → ℚ × List ℚ
  | [] => (0, [])
  | q :: s => (q, s)

/-- A stream of draws is valid when every draw lies in `[0, 1)`. -/
def ValidStream (s : List ℚ) : Prop := ∀ q ∈ s, 0 ≤ q ∧ q < 1

instance decidableValidStream (s : List ℚ) : Decidable (ValidStream s) :=
  List.decidableBAll (fun q => 0 ≤ q ∧ q < 1) s

/-- Kernel-computable rational multiplication (the library `Rat.mul` is
irreducible): multiply numerators and denominators and renormalize. -/
def qmul (a b : ℚ) : ℚ := mkRat (a.num * b.num) (a.den * b.den)

/-- Kernel-computable rational addition. -/
def qadd (a b : ℚ) : ℚ := mkRat (a.num * b.den + b.num * a.den) (a.den * b.den)

/-- Kernel-computable rational floor. -/
def qfloor (a : ℚ) : ℤ := a.num / a.den

/-- Kernel-computable sum of a list of rationals. -/
def qsum : List ℚ → ℚ
  | [] => 0
  | x :: xs => qadd x (qsum xs)

/-- Model of `random.randrange(a, b)`: one uniform draw mapped affinely into
`[a, b)`. -/
def randrange (a b : ℤ) (s : List ℚ) : ℤ × List ℚ :=
  (a + qfloor (qmul (randFloat s).1 ((b - a : ℤ) : ℚ)), (randFloat s).2)

/-- Model of `random.randint(a, b)` = `randrange(a, b + 1)`. -/
def randint (a b : ℤ) (s : List ℚ) : ℤ × List ℚ :=
  randrange a (b + 1) s

/-- Auxiliary cumulative-weight scan for `weightedChoice`: return the first
item whose cumulative weight exceeds the scaled draw `x`. -/
def pickCum {α : Type} (x : ℚ) : ℚ → List (α × ℚ) → α → α
  | _, [], d => d
  | acc, (a, w) :: rest, d =>
    if x < qadd acc w then a else pickCum x (qadd acc w) rest d

/-- Model of `random.choices(items, weights, k=1)[0]`: CPython draws
`u = random()`, scales by the total weight and bisects the cumulative
weights. -/
def weightedChoice {α : Type} (items : List (α × ℚ)) (dflt : α) (s : List ℚ) :
    α × List ℚ :=
  let p := randFloat s
  let total := qsum (items.map Prod.snd)
  (pickCum (qmul p.1 total) 0 items dflt, p.2)

/-! ## Python string helpers -/

/-- Model of Python `str.split()` (no argument): split on whitespace runs and
drop empty chunks. -/
def pySplitWs (s : PyStr) : List PyStr :=
  (s.splitOnP (fun c => c.isWhitespace)).filter (fun t => !t.isEmpty)

/-- Model of `" ".join(tokens)`. -/
def joinSpace : List PyStr → PyStr
  | [] => []
  | [t] => t
  | t :: u :: ts => t ++ ' ' :: joinSpace (u :: ts)

/-- Model of `sep.join` for a single-character separator (used for
`"\n".join`). -/
def joinWith (sep : Char) : List PyStr → PyStr
  | [] => []
  | [t] => t
  | t :: u :: ts => t ++ sep :: joinWith sep (u :: ts)

/-- Decimal digits of a natural number, most significant first, fuel-indexed
to keep the recursion structural (fuel `n + 1` always suffices). -/
def natCharsAux : ℕ → ℕ → List Char
  | 0, _ => []
  | fuel + 1, n =>
    if n < 10 then [Char.ofNat (48 + n)]
    else natCharsAux fuel (n / 10) ++ [Char.ofNat (48 + n % 10)]

/-- Model of Python `str(n)` for a natural number. -/
def natChars (n : ℕ) : List Char := natCharsAux (n + 1) n

/-- Model of Python `str(z)` for an integer. -/
def intChars (z : ℤ) : List Char :=
  if z < 0 then '-' :: natChars z.natAbs else natChars z.toNat

/-! ## mutator.py: `change_number_of_clauses` (the shared header rewriter) -/

/-- Model of `change_number_of_clauses(header, clauses)` from mutator.py:
with probability 0.15 leave the header untouched; otherwise, if the header
has exactly 4 whitespace tokens, replace the 4th by `str(clauses)` and rejoin
with single spaces. -/
def change_number_of_clauses (header : PyStr) (clauses : ℤ) (s : List ℚ) :
    PyStr × List ℚ :=
  let p := randFloat s
  if p.1 < mkRat 3 20 then (header, p.2)
  else
    let headings := pySplitWs header
    if headings.length ≠ 4 then (header, p.2)
    else (joinSpace (headings.take 3 ++ [intChars clauses]), p.2)

/-! ## UTF-8 encode / lossy decode (for `ByteMutatorStrategy`) -/

/-- UTF-8 encoding of one code point. -/
def utf8EncodeChar (c : Char) : List ℕ :=
  let n := c.toNat
  if n < 128 then [n]
  else if n < 2048 then [192 + n / 64, 128 + n % 64]
  else if n < 65536 then [224 + n / 4096, 128 + (n / 64) % 64, 128 + n % 64]
  else [240 + n / 262144, 128 + (n / 4096) % 64, 128 + (n / 64) % 64, 128 + n % 64]

/-- Model of `str.encode()`. -/
def utf8Encode (s : PyStr) : List ℕ := s.flatMap utf8EncodeChar

/-- A UTF-8 continuation byte. -/
def isContByte (b : ℕ) : Bool := decide (128 ≤ b) && decide (b < 192)

/-- Range check for the first continuation byte of a 3-byte sequence
(excludes overlong encodings and surrogates, as CPython does). -/
def cont3Fst (b b2 : ℕ) : Bool :=
  if b = 224 then decide (160 ≤ b2) && decide (b2 ≤ 191)
  else if b = 237 then decide (128 ≤ b2) && decide (b2 ≤ 159)
  else isContByte b2

/-- Range check for the first continuation byte of a 4-byte sequence. -/
def cont4Fst (b b2 : ℕ) : Bool :=
  if b = 240 then decide (144 ≤ b2) && decide (b2 ≤ 191)
  else if b = 244 then decide (128 ≤ b2) && decide (b2 ≤ 143)
  else isContByte b2

/-- One decoding step at lead byte `b` with remaining bytes `bs`: the decoded
character (none when the sequence is ill-formed, which skips the lead byte)
and the number of continuation bytes consumed. -/
def utf8Step (b : ℕ) (bs : List ℕ) : Option Char × ℕ :=
  if b < 128 then (some (Char.ofNat b), 0)
  else if 194 ≤ b ∧ b ≤ 223 then
    match bs with
    | b2 :: _ =>
      if isContByte b2 then (some (Char.ofNat ((b - 192) * 64 + (b2 - 128))), 1)
      else (none, 0)
    | [] => (none, 0)
  else if 224 ≤ b ∧ b ≤ 239 then
    match bs with
    | b2 :: b3 :: _ =>
      if cont3Fst b b2 && isContByte b3 then
        (some (Char.ofNat ((b - 224) * 4096 + (b2 - 128) * 64 + (b3 - 128))), 2)
      else (none, 0)
    | _ => (none, 0)
  else if 240 ≤ b ∧ b ≤ 244 then
    match bs with
    | b2 :: b3 :: b4 :: _ =>
      if cont4Fst b b2 && isContByte b3 && isContByte b4 then
        (some (Char.ofNat ((b - 240) * 262144 + (b2 - 128) * 4096 +
          (b3 - 128) * 64 + (b4 - 128))), 3)
      else (none, 0)
    | _ => (none, 0)
  else (none, 0)

/-- Fuel-indexed decoding walk (every iteration consumes at least the lead
byte, so fuel equal to the byte count suffices). -/
def utf8DecodeIgnoreAux : ℕ → List ℕ → List Char
  | 0, _ => []
  | _ + 1, [] => []
  | fuel + 1, b :: bs =>
    let st := utf8Step b bs
    (match st.1 with | some c => [c] | none => []) ++
      utf8DecodeIgnoreAux fuel (List.drop st.2 bs)

/-- Model of `bytes.decode(errors="ignore")`: decode UTF-8, skipping the
bytes of every ill-formed sequence.  Skipping is done byte by byte; orphan
continuation bytes fall through to the skip case, which matches CPython's
range-based skipping on all inputs. -/
def utf8DecodeIgnore (l : List ℕ) : List Char := utf8DecodeIgnoreAux l.length l

/-! ## generator.py -/

/-- The shared clause-length distribution from `get_random_clause_len`. -/
def CLAUSE_LENGTH_DISTRIBUTION : List (ℕ × ℚ) :=
  [(0, mkRat 1 200), (1, mkRat 1 200), (2, mkRat 99 400), (3, mkRat 99 400), (4, mkRat 99 400), (5, mkRat 99 400)]

/-- Model of `get_random_clause_len()`. -/
def get_random_clause_len (s : List ℚ) : ℕ × List ℚ :=
  weightedChoice CLAUSE_LENGTH_DISTRIBUTION 0 s

/-- The atoms of one clause: `clause_len` draws of
`random.randint(-num_vars, num_vars)`, each converted by `str`. -/
def genClauseAtoms (numVars : ℤ) : ℕ → List ℚ → List PyStr × List ℚ
  | 0, s => ([], s)
  | n + 1, s =>
    let p := randint (-numVars) numVars s
    let q := genClauseAtoms numVars n p.2
    (intChars p.1 :: q.1, q.2)

/-- Model of `"p cnf {} {}\n".format(v, c)`. -/
def mkHeader (v c : ℤ) : PyStr :=
  "p cnf ".toList ++ intChars v ++ [' '] ++ intChars c ++ ['\n']

/-- Clause loop of `ValidTestGeneratorStrategy.generate`: each clause is the
space-joined atoms followed by `" 0\n"`. -/
def validClausesLoop (numVars : ℤ) : ℕ → List ℚ → PyStr × List ℚ
  | 0, s => ([], s)
  | n + 1, s =>
    let pl := get_random_clause_len s
    let pa := genClauseAtoms numVars pl.1 pl.2
    let pr := validClausesLoop numVars n pa.2
    (joinSpace pa.1 ++ " 0\n".toList ++ pr.1, pr.2)

/-- Model of `ValidTestGeneratorStrategy.generate`. -/
def validGenerate (s : List ℚ) : PyStr × List ℚ :=
  let pv := randrange 3 5000 s
  let pc := randrange 3000 10000 pv.2
  let pb := validClausesLoop pv.1 pc.1.toNat pc.2
  (mkHeader pv.1 pc.1 ++ pb.1, pb.2)

/-- One clause of `InvalidSyntaxTestGeneratorStrategy.generate`: the
space-joined atoms, then `" 0"` exactly when the per-clause draw is below
0.3, then `"\n"`. -/
def invalidSyntaxClauseStep (numVars : ℤ) (s : List ℚ) : PyStr × List ℚ :=
  let pl := get_random_clause_len s
  let pa := genClauseAtoms numVars pl.1 pl.2
  let pu := randFloat pa.2
  (joinSpace pa.1 ++ (if pu.1 < mkRat 3 10 then " 0".toList else []) ++ ['\n'], pu.2)

/-- Clause loop of `InvalidSyntaxTestGeneratorStrategy.generate`. -/
def invalidSyntaxClausesLoop (numVars : ℤ) : ℕ → List ℚ → PyStr × List ℚ
  | 0, s => ([], s)
  | n + 1, s =>
    let pc := invalidSyntaxClauseStep numVars s
    let pr := invalidSyntaxClausesLoop numVars n pc.2
    (pc.1 ++ pr.1, pr.2)

/-- Model of `InvalidSyntaxTestGeneratorStrategy.generate`. -/
def invalidSyntaxGenerate (s : List ℚ) : PyStr × List ℚ :=
  let pv := randrange 3 5000 s
  let pc := randrange 3000 10000 pv.2
  let pb := invalidSyntaxClausesLoop pv.1 pc.1.toNat pc.2
  (mkHeader pv.1 pc.1 ++ pb.1, pb.2)

/-- Model of `ValidSyntaxInvalidSemanticsTestGeneratorStrategy.generate_num_clauses`. -/
def generate_num_clauses (s : List ℚ) : ℤ × List ℚ := randrange 3 1000 s

/-- Model of `ValidSyntaxInvalidSemanticsTestGeneratorStrategy.generate_num_vars`. -/
def generate_num_vars (s : List ℚ) : ℤ × List ℚ := randrange 3 5000 s

/-- Model of `generate_overflowed_int`: with the branch draw below 0.75
return `randrange(MAX_INT + 1, 2 * MAX_INT)`, else
`randrange(2 * MIN_INT, MIN_INT - 1)` (with `MAX_INT = 2^31 - 1`,
`MIN_INT = -2^31`). -/
def generate_overflowed_int (s : List ℚ) : ℤ × List ℚ :=
  let pu := randFloat s
  if pu.1 < mkRat 3 4 then randrange 2147483648 4294967294 pu.2
  else randrange (-4294967296) (-2147483649) pu.2

/-- The declared variable count of
`ValidSyntaxInvalidSemanticsTestGeneratorStrategy.generate`: first draw
`generate_num_vars()`, then overwrite it with `generate_overflowed_int()`
when the branch draw is below 0.1. -/
def vsisPickNumVars (s : List ℚ) : ℤ × List ℚ :=
  let pv := generate_num_vars s
  let pu := randFloat pv.2
  if pu.1 < mkRat 1 10 then generate_overflowed_int pu.2 else (pv.1, pu.2)

/-- One atom of the ValidSyntaxInvalidSemantics generator:
`random.randint(-self.generate_num_vars(), self.generate_num_vars())`,
re-sampling both bounds independently. -/
def vsisAtom (s : List ℚ) : ℤ × List ℚ :=
  let pa := generate_num_vars s
  let pb := generate_num_vars pa.2
  randint (-pa.1) pb.1 pb.2

/-- The atoms of one ValidSyntaxInvalidSemantics clause. -/
def vsisClauseAtoms : ℕ → List ℚ → List PyStr × List ℚ
  | 0, s => ([], s)
  | n + 1, s =>
    let p := vsisAtom s
    let q := vsisClauseAtoms n p.2
    (intChars p.1 :: q.1, q.2)

/-- Clause loop of `ValidSyntaxInvalidSemanticsTestGeneratorStrategy.generate`. -/
def vsisClausesLoop : ℕ → List ℚ → PyStr × List ℚ
  | 0, s => ([], s)
  | n + 1, s =>
    let pl := get_random_clause_len s
    let pa := vsisClauseAtoms pl.1 pl.2
    let pr := vsisClausesLoop n pa.2
    (joinSpace pa.1 ++ " 0\n".toList ++ pr.1, pr.2)

/-- Model of `ValidSyntaxInvalidSemanticsTestGeneratorStrategy.generate`.
Note that the clause count in the header and the number of clauses actually
emitted come from two independent `generate_num_clauses()` calls. -/
def vsisGenerate (s : List ℚ) : PyStr × List ℚ :=
  let pv := vsisPickNumVars s
  let pc1 := generate_num_clauses pv.2
  let pc2 := generate_num_clauses pc1.2
  let pb := vsisClausesLoop pc2.1.toNat pc2.2
  (mkHeader pv.1 pc1.1 ++ pb.1, pb.2)

/-- The contents of Python's `string.printable`, by ASCII code blocks
(digits, lowercase, uppercase, the four punctuation blocks, whitespace). -/
def stringPrintable : List Char :=
  ((List.range 10).map (fun i => Char.ofNat (48 + i))) ++
  ((List.range 26).map (fun i => Char.ofNat (97 + i))) ++
  ((List.range 26).map (fun i => Char.ofNat (65 + i))) ++
  ((List.range 15).map (fun i => Char.ofNat (33 + i))) ++
  ((List.range 7).map (fun i => Char.ofNat (58 + i))) ++
  ((List.range 6).map (fun i => Char.ofNat (91 + i))) ++
  ((List.range 4).map (fun i => Char.ofNat (123 + i))) ++
  [Char.ofNat 32, Char.ofNat 9, Char.ofNat 10, Char.ofNat 13,
   Char.ofNat 11, Char.ofNat 12]

/-- Model of `RandomTestGeneratorStrategy.random_char`:
`random.choice(string.printable)` consumes one uniform draw and indexes the
100-character printable alphabet. -/
def random_char (s : List ℚ) : Char × List ℚ :=
  let pu := randFloat s
  (stringPrintable.getD (qfloor (qmul pu.1 100)).toNat ' ', pu.2)

/-- Character-accumulation loop of `random_string`. -/
def randomStringLoop : ℕ → List ℚ → PyStr × List ℚ
  | 0, s => ([], s)
  | n + 1, s =>
    let pc := random_char s
    let pr := randomStringLoop n pc.2
    (pc.1 :: pr.1, pr.2)

/-- Model of `RandomTestGeneratorStrategy.random_string(min_len, max_len)`. -/
def random_string (minLen maxLen : ℤ) (s : List ℚ) : PyStr × List ℚ :=
  let pn := randint minLen maxLen s
  randomStringLoop pn.1.toNat pn.2

/-- Clause loop of `RandomTestGeneratorStrategy.generate`: a short printable
blob plus a space, then `"0"` with the first draw below 0.5, then `"\n"`
with the second draw below 0.85. -/
def randomClausesLoop : ℕ → List ℚ → PyStr × List ℚ
  | 0, s => ([], s)
  | n + 1, s =>
    let pb := random_string 0 3 s
    let pu := randFloat pb.2
    let pv := randFloat pu.2
    let pr := randomClausesLoop n pv.2
    (pb.1 ++ [' '] ++ (if pu.1 < mkRat 1 2 then ['0'] else []) ++
      (if pv.1 < mkRat 17 20 then ['\n'] else []) ++ pr.1, pr.2)

/-- Model of `RandomTestGeneratorStrategy.generate`. -/
def randomGenerate (s : List ℚ) : PyStr × List ℚ :=
  let pg1 := random_string 0 5 s
  let pg2 := random_string 0 5 pg1.2
  let pc := randrange 0 100 pg2.2
  let pb := randomClausesLoop pc.1.toNat pc.2
  ("p cnf ".toList ++ pg1.1 ++ [' '] ++ pg2.1 ++ ['\n'] ++ pb.1, pb.2)

/-- The four generation strategies of the fuzzer's pool. -/
inductive GenStrategy : Type
  | valid
  | vsis
  | invalidSyntax
  | rnd

/-- Model of `TestFileGenerator.generate_test_file`: weighted choice over the
strategy pool from `Fuzzer.__init__` (weights 0.3 / 0.5 / 0.1 / 0.1), then
run the chosen generator; the returned string is what is written to the test
file. -/
def generate_test_file (s : List ℚ) : PyStr × List ℚ :=
  let pg := weightedChoice
    [(GenStrategy.valid, mkRat 3 10), (GenStrategy.vsis, mkRat 1 2),
     (GenStrategy.invalidSyntax, mkRat 1 10), (GenStrategy.rnd, mkRat 1 10)]
    GenStrategy.valid s
  match pg.1 with
  | GenStrategy.valid => validGenerate pg.2
  | GenStrategy.vsis => vsisGenerate pg.2
  | GenStrategy.invalidSyntax => invalidSyntaxGenerate pg.2
  | GenStrategy.rnd => randomGenerate pg.2

/-! ## mutator.py: MutationFile and the four mutation strategies -/

/-- Model of the `MutationFile` dataclass. -/
structure MutationFile : Type where
  header : PyStr
  said_atoms : Option ℤ
  said_clauses : Option ℤ
  actual_clauses : ℕ
  lines : List PyStr

/-- Model of Python `str.rstrip('0').rstrip()`: drop trailing `'0'`
characters, then trailing whitespace. -/
def rstripZeroWs (s : PyStr) : PyStr :=
  (((s.reverse.dropWhile (fun c => c == '0')).dropWhile
    (fun c => c.isWhitespace))).reverse

/-- The merging walk of `LineMergerMutatorStrategy.mutate`.  Every loop
iteration consumes one draw (the `and` short-circuit in Python still
evaluates `random.random()` first); at a non-terminal index a draw below
0.10 merges the line with its successor, optionally stripping each side's
trailing zero per the two per-invocation flags.  Returns the new lines and
the number of merges. -/
def mergeLoop (df ds : Bool) : List PyStr → List ℚ → List PyStr × ℕ × List ℚ
  | [], s => ([], 0, s)
  | [l], s => ([l], 0, (randFloat s).2)
  | l₁ :: l₂ :: rest, s =>
    let pu := randFloat s
    if pu.1 < mkRat 1 10 then
      let f := if df then rstripZeroWs l₁ else l₁
      let g := if ds then rstripZeroWs l₂ else l₂
      let pr := mergeLoop df ds rest pu.2
      ((f ++ ' ' :: g) :: pr.1, pr.2.1 + 1, pr.2.2)
    else
      let pr := mergeLoop df ds (l₂ :: rest) pu.2
      (l₁ :: pr.1, pr.2.1, pr.2.2)

/-- Model of `LineMergerMutatorStrategy.mutate`. -/
def lineMergerMutate (mf : MutationFile) (s : List ℚ) : PyStr × List ℚ :=
  let p1 := randFloat s
  let p2 := randFloat p1.2
  let pm := mergeLoop (p1.1 < mkRat 9 10) (p2.1 < mkRat 1 10) mf.lines p2.2
  let ph := change_number_of_clauses mf.header
    ((mf.lines.length : ℤ) - (pm.2.1 : ℤ)) pm.2.2
  (joinWith '\n' (ph.1 :: pm.1), ph.2)

/-- The atoms of a freshly synthesized clause, aborting (as Python's
`random.randint` raises `ValueError`) when the bound is negative so the
range is empty.  The abort happens before any draw of the offending call. -/
def genAtomsChecked (nv : ℤ) : ℕ → List ℚ → Option (List PyStr) × List ℚ
  | 0, s => (some [], s)
  | n + 1, s =>
    if -nv > nv then (none, s)
    else
      let p := randint (-nv) nv s
      let q := genAtomsChecked nv n p.2
      match q.1 with
      | some rest => (some (intChars p.1 :: rest), q.2)
      | none => (none, q.2)

/-- Model of `LineRemoverMutatorStrategy.generate_new_line`. -/
def lrGenerateNewLine (mf : MutationFile) (s : List ℚ) : Option PyStr × List ℚ :=
  let pu := randFloat s
  let pn : ℤ × List ℚ :=
    match mf.said_atoms with
    | some n => if pu.1 < mkRat 1 2 then (n, pu.2) else randrange 1 1000 pu.2
    | none => randrange 1 1000 pu.2
  let pl := get_random_clause_len pn.2
  let pa := genAtomsChecked pn.1 pl.1 pl.2
  match pa.1 with
  | some atoms => (some (joinSpace atoms), pa.2)
  | none => (none, pa.2)

/-- The per-line walk of `LineRemoverMutatorStrategy.mutate`: with the draw
above 0.25 keep the line; otherwise either remove it (decrementing
`changes`) or keep it and append a new clause (incrementing `changes`). -/
def lrLoop (mf : MutationFile) (remove : Bool) :
    List PyStr → List ℚ → Option (List PyStr × ℤ) × List ℚ
  | [], s => (some ([], 0), s)
  | l :: ls, s =>
    let pu := randFloat s
    if pu.1 > mkRat 1 4 then
      let pr := lrLoop mf remove ls pu.2
      match pr.1 with
      | some r => (some (l :: r.1, r.2), pr.2)
      | none => (none, pr.2)
    else if remove then
      let pr := lrLoop mf remove ls pu.2
      match pr.1 with
      | some r => (some (r.1, r.2 - 1), pr.2)
      | none => (none, pr.2)
    else
      let pn := lrGenerateNewLine mf pu.2
      match pn.1 with
      | none => (none, pn.2)
      | some nl =>
        let pr := lrLoop mf remove ls pn.2
        match pr.1 with
        | some r => (some (l :: nl :: r.1, r.2 + 1), pr.2)
        | none => (none, pr.2)

/-- Model of `LineRemoverMutatorStrategy.mutate` (`none` models the Python
exception raised by `randint` on an empty range, which aborts the strategy). -/
def lineRemoverMutate (mf : MutationFile) (s : List ℚ) : Option PyStr × List ℚ :=
  let pu := randFloat s
  let pr := lrLoop mf (pu.1 < mkRat 1 2) mf.lines pu.2
  match pr.1 with
  | none => (none, pr.2)
  | some r =>
    let ph := change_number_of_clauses mf.header ((mf.lines.length : ℤ) - r.2) pr.2
    (some (joinWith '\n' (ph.1 :: r.1)), ph.2)

/-- Model of `AtomChangerMutatorStrategy.flip_sign` (only called on nonempty
atoms). -/
def flip_sign (atom : PyStr) : PyStr :=
  match atom with
  | '-' :: rest => rest
  | _ => '-' :: atom

/-- Model of `AtomChangerMutatorStrategy.new_atom`. -/
def acNewAtom (s : List ℚ) : PyStr × List ℚ :=
  let pn := randrange 1 1000 s
  let pu := randFloat pn.2
  (if pu.1 < mkRat 1 2 then '-' :: intChars pn.1 else intChars pn.1, pu.2)

/-- The per-atom walk of `AtomChangerMutatorStrategy.mutate`: empty atoms are
skipped without a draw; otherwise a draw below 0.25 flips the sign, below
0.5 removes the atom or appends a fresh one, and anything else keeps it. -/
def acProcessAtoms (remove : Bool) : List PyStr → List ℚ → List PyStr × List ℚ
  | [], s => ([], s)
  | atom :: rest, s =>
    if atom.isEmpty then acProcessAtoms remove rest s
    else
      let pr := randFloat s
      if pr.1 < mkRat 1 4 then
        let po := acProcessAtoms remove rest pr.2
        (flip_sign atom :: po.1, po.2)
      else if pr.1 < mkRat 1 2 then
        if remove then acProcessAtoms remove rest pr.2
        else
          let pn := acNewAtom pr.2
          let po := acProcessAtoms remove rest pn.2
          (atom :: pn.1 :: po.1, po.2)
      else
        let po := acProcessAtoms remove rest pr.2
        (atom :: po.1, po.2)

/-- The per-line walk of `AtomChangerMutatorStrategy.mutate`: with the draw
below 0.25 split the line on single spaces, drop the last token, rewrite the
atoms and re-append `"0"`. -/
def acLines (remove : Bool) : List PyStr → List ℚ → List PyStr × List ℚ
  | [], s => ([], s)
  | l :: ls, s =>
    let pu := randFloat s
    if pu.1 < mkRat 1 4 then
      let atoms := l.splitOn ' '
      let pa := acProcessAtoms remove atoms.dropLast pu.2
      let po := acLines remove ls pa.2
      (joinSpace (pa.1 ++ [['0']]) :: po.1, po.2)
    else
      let po := acLines remove ls pu.2
      (l :: po.1, po.2)

/-- Model of `AtomChangerMutatorStrategy.mutate`.  The header is not
rewritten. -/
def atomChangerMutate (mf : MutationFile) (s : List ℚ) : PyStr × List ℚ :=
  let pu := randFloat s
  let po := acLines (pu.1 < mkRat 1 2) mf.lines pu.2
  (joinWith '\n' (mf.header :: po.1), po.2)

/-- The byte walk of `ByteMutatorStrategy.mutate`: each byte is replaced,
with its draw below 0.25, by `random.randint(0, 255)`. -/
def mutateBytes : List ℕ → List ℚ → List ℕ × List ℚ
  | [], s => ([], s)
  | b :: bs, s =>
    let pu := randFloat s
    let pb : ℤ × List ℚ := if pu.1 < mkRat 1 4 then randint 0 255 pu.2 else ((b : ℤ), pu.2)
    let pr := mutateBytes bs pb.2
    (pb.1.toNat :: pr.1, pr.2)

/-- Model of `ByteMutatorStrategy.mutate`: encode the newline-joined lines,
mutate the bytes, decode lossily, and prefix the original header (the source
concatenates the header directly, without a separating newline). -/
def byteMutatorMutate (mf : MutationFile) (s : List ℚ) : PyStr × List ℚ :=
  let bytes := utf8Encode (joinWith '\n' mf.lines)
  let po := mutateBytes bytes s
  (mf.header ++ utf8DecodeIgnore po.1, po.2)

/-- The four mutation strategies of the fuzzer's pool. -/
inductive MutStrategy : Type
  | lineMerger
  | lineRemover
  | atomChanger
  | byteMutator

/-- Model of `TestFileMutator.mutate_test_file`: weighted choice over the
mutator pool from `Fuzzer.__init__` (weights 0.2 / 0.2 / 0.4 / 0.2), then
run the chosen strategy; `none` models a strategy raising an exception. -/
def mutate_test_file (mf : MutationFile) (s : List ℚ) : Option PyStr × List ℚ :=
  let pm := weightedChoice
    [(MutStrategy.lineMerger, mkRat 1 5), (MutStrategy.lineRemover, mkRat 1 5),
     (MutStrategy.atomChanger, mkRat 2 5), (MutStrategy.byteMutator, mkRat 1 5)]
    MutStrategy.lineMerger s
  match pm.1 with
  | MutStrategy.lineMerger =>
    let p := lineMergerMutate mf pm.2
    (some p.1, p.2)
  | MutStrategy.lineRemover => lineRemoverMutate mf pm.2
  | MutStrategy.atomChanger =>
    let p := atomChangerMutate mf pm.2
    (some p.1, p.2)
  | MutStrategy.byteMutator =>
    let p := byteMutatorMutate mf pm.2
    (some p.1, p.2)

/-! ## fuzzer.py: data model, environment and state -/

/-- Model of Python `int(str)` as used on header tokens: optional surrounding
whitespace, an optional sign, then at least one decimal digit. -/
def digitsVal (l : List Char) : ℕ :=
  l.foldl (fun acc c => acc * 10 + (c.toNat - 48)) 0

def pyParseInt (s : PyStr) : Option ℤ :=
  let t := ((s.dropWhile (fun c => c.isWhitespace)).reverse.dropWhile
    (fun c => c.isWhitespace)).reverse
  match t with
  | [] => none
  | c :: rest =>
    let sign : ℤ := if c = '-' then -1 else 1
    let digits := if c = '-' ∨ c = '+' then rest else c :: rest
    if digits ≠ [] ∧ digits.all (fun d => d.isDigit) then
      some (sign * (digitsVal digits : ℤ))
    else none

/-- Model of the `RunOutput` dataclass.  Crash signatures are opaque tokens
(`ℕ`); coverage is the rational model of the Python float. -/
structure RunOutput : Type where
  test_file : PyStr
  crash : ℕ
  stderr : PyStr
  coverage : ℚ
deriving DecidableEq

/-- The environment of external collaborators: the response streams of the
subprocess runner (stdout / stderr / exit status per run), the response
stream of the coverage oracle, and the deterministic crash analyzer. -/
structure SutEnv : Type where
  stdouts : List PyStr
  stderrs : List PyStr
  exits : List ℤ
  covs : List ℚ
  crashOf : PyStr → Option ℕ

/-- The fuzzer's mutable state: `interesting_cases` (insertion-ordered
signature keys, each with its heap's element list in insertion order), the
FIFO `work_queue`, and the filesystem visible to the fuzzer. -/
structure FuzzerState : Type where
  interestingCases : List (ℕ × List RunOutput)
  workQueue : List RunOutput
  files : List (PyStr × PyStr)
deriving DecidableEq

/-- Result of one fuzzing step: new state, remaining RNG stream, remaining
environment, and the bytes written to the scratch test file this iteration
(none when the iteration wrote no test file). -/
structure StepRes : Type where
  st : FuzzerState
  rng : List ℚ
  env : SutEnv
  emit : Option PyStr

/-- Model of `Fuzzer.run_solver`: one subprocess run consumes one element of
each runner stream and returns `(stdout, stderr, returncode)`. -/
def run_solver (e : SutEnv) : PyStr × PyStr × ℤ × SutEnv :=
  (e.stdouts.headD [], e.stderrs.headD [], e.exits.headD 0,
   { stdouts := e.stdouts.tail, stderrs := e.stderrs.tail,
     exits := e.exits.tail, covs := e.covs, crashOf := e.crashOf })

/-- Model of `Fuzzer.get_run_output`: `None` when the analyzer reports no
crash; otherwise a coverage snapshot is consumed from the oracle stream. -/
def get_run_output (e : SutEnv) (test_file : PyStr) (stderr : PyStr) :
    Option RunOutput × SutEnv :=
  match e.crashOf stderr with
  | none => (none, e)
  | some sig =>
    (some ⟨test_file, sig, stderr, e.covs.headD 0⟩,
     { stdouts := e.stdouts, stderrs := e.stderrs, exits := e.exits,
       covs := e.covs.tail, crashOf := e.crashOf })

/-! ### Filesystem helpers -/

def TEST_OUTPUT_PATH : PyStr := "fuzzed-tests".toList

def MAX_SAVED_TESTS : ℕ := 20

def GENERATION_FUZZING_PROB : ℚ := mkRat 7 20

def testInputName : PyStr := "test_input.cnf".toList

def joinPath (d n : PyStr) : PyStr := d ++ '/' :: n

/-- The destination file name `crashing_test_<iter>.cnf` inside the output
directory. -/
def destName (iter : ℕ) : PyStr :=
  joinPath TEST_OUTPUT_PATH ("crashing_test_".toList ++ natChars iter ++ ".cnf".toList)

/-- Write (create or overwrite) a file. -/
def filesSet (fs : List (PyStr × PyStr)) (name content : PyStr) :
    List (PyStr × PyStr) :=
  if name ∈ fs.map Prod.fst then
    fs.map (fun p => if p.1 = name then (name, content) else p)
  else fs ++ [(name, content)]

def filesRemove (fs : List (PyStr × PyStr)) (name : PyStr) :
    List (PyStr × PyStr) :=
  fs.filter (fun p => p.1 != name)

def filesGet (fs : List (PyStr × PyStr)) (name : PyStr) : Option PyStr :=
  match fs.find? (fun p => p.1 == name) with
  | some p => some p.2
  | none => none

def isDummyName (n : PyStr) : Bool :=
  "dummy_".toList.isPrefixOf n && ".cnf".toList.isSuffixOf n

/-- Model of `Fuzzer.clean_dummy_files` with `remove_single_file = True`:
remove the first remaining startup dummy file, if any. -/
def clean_dummy_files (fs : List (PyStr × PyStr)) : List (PyStr × PyStr) :=
  match fs.find? (fun p => isDummyName p.1) with
  | some p => filesRemove fs p.1
  | none => fs

/-! ### Corpus operations -/

def casesKeys (c : List (ℕ × List RunOutput)) : List ℕ := c.map Prod.fst

/-- `interesting_cases[sig].put((-ro.coverage, ro))`: append to the heap's
element list (callers always ensure the key exists first). -/
def casesPush (c : List (ℕ × List RunOutput)) (sig : ℕ) (ro : RunOutput) :
    List (ℕ × List RunOutput) :=
  c.map (fun p => if p.1 = sig then (p.1, p.2 ++ [ro]) else p)

/-- Model of `Fuzzer.is_interesting_mutation(before, after)`, branch for
branch from the source: both kept for a signature unseen in
`interesting_cases` or differing signatures; `(keep_after, keep_before) =
(True, False)` when the same signature arrives with higher coverage;
otherwise keep only `before`. -/
def is_interesting_mutation (cases : List (ℕ × List RunOutput))
    (before after : RunOutput) : Bool × Bool :=
  if after.crash ∉ casesKeys cases then (true, true)
  else if after.crash ≠ before.crash then (true, true)
  else if after.coverage > before.coverage then (true, false)
  else (false, true)

/-- The recording block of `Fuzzer.mutate` (fuzzer.py lines 259-269): ensure
the heap key exists, compute the keep decision — the call site passes
`(run_output, before)`, i.e. the new run as the function's `before`
parameter and the popped case as its `after` parameter — append the kept
items to the work queue (run_output first), then push the new run to its
heap. -/
def mutateRecord (st : FuzzerState) (ro before : RunOutput) : FuzzerState :=
  let st₁ :=
    if ro.crash ∈ casesKeys st.interestingCases then st
    else { st with interestingCases := st.interestingCases ++ [(ro.crash, [])] }
  let kp := is_interesting_mutation st₁.interestingCases ro before
  let st₂ := { st₁ with
    workQueue := st₁.workQueue ++ (if kp.1 then [ro] else []) ++
      (if kp.2 then [before] else []) }
  { st₂ with interestingCases := casesPush st₂.interestingCases ro.crash ro }

/-! ### The three fuzzing paths -/

/-- Model of `Fuzzer.generation_fuzzing`: generate a file into the scratch
path, run the solver, and if the run crashed record it (queue push only for
a newly seen signature), move the scratch file to
`crashing_test_<iter>.cnf` and drop one dummy file. -/
def generation_fuzzing (st : FuzzerState) (rng : List ℚ) (e : SutEnv)
    (iter : ℕ) : StepRes :=
  let pg := generate_test_file rng
  let st₁ := { st with files := filesSet st.files testInputName pg.1 }
  let pr := run_solver e
  let po := get_run_output pr.2.2.2 (destName iter) pr.2.1
  match po.1 with
  | none => ⟨st₁, pg.2, po.2, some pg.1⟩
  | some ro =>
    let st₂ :=
      if ro.crash ∈ casesKeys st₁.interestingCases then st₁
      else { st₁ with workQueue := st₁.workQueue ++ [ro],
                      interestingCases := st₁.interestingCases ++ [(ro.crash, [])] }
    let st₃ := { st₂ with interestingCases := casesPush st₂.interestingCases ro.crash ro }
    let st₄ := { st₃ with
      files := filesSet (filesRemove st₃.files testInputName) (destName iter) pg.1 }
    ⟨{ st₄ with files := clean_dummy_files st₄.files }, pg.2, po.2, some pg.1⟩

/-- Model of `Fuzzer.mutate` from the pre-split lines onward: parse the
header (both counts become unknown if either fails to parse), build the
`MutationFile`, write the mutated bytes to the scratch file, run the solver,
and record a crashing run via `mutateRecord`, copying the scratch file to
the destination.  A strategy exception leaves the scratch file truncated. -/
def fuzzer_mutate (st : FuzzerState) (rng : List ℚ) (e : SutEnv) (iter : ℕ)
    (lines : List PyStr) (before : RunOutput) : StepRes :=
  if lines.length < 2 then ⟨st, rng, e, none⟩
  else
    let header := lines.headD []
    let headings := pySplitWs header
    if headings.length ≠ 4 then ⟨st, rng, e, none⟩
    else
      let sa₀ := pyParseInt (headings.getD 2 [])
      let sc₀ := pyParseInt (headings.getD 3 [])
      let said : Option ℤ × Option ℤ :=
        match sa₀, sc₀ with
        | some a, some b => (some a, some b)
        | _, _ => (none, none)
      let mf : MutationFile := ⟨header, said.1, said.2, lines.length - 1, lines.tail⟩
      let pm := mutate_test_file mf rng
      match pm.1 with
      | none => ⟨{ st with files := filesSet st.files testInputName [] }, pm.2, e, none⟩
      | some content =>
        let st₁ := { st with files := filesSet st.files testInputName content }
        let pr := run_solver e
        let po := get_run_output pr.2.2.2 (destName iter) pr.2.1
        match po.1 with
        | none => ⟨st₁, pm.2, po.2, some content⟩
        | some ro =>
          let st₂ := mutateRecord st₁ ro before
          let st₃ := { st₂ with files := filesSet st₂.files (destName iter) content }
          ⟨{ st₃ with files := clean_dummy_files st₃.files }, pm.2, po.2, some content⟩

/-- Model of `Fuzzer.mutation_fuzzing`: pop the head of the work queue (no-op
on an empty queue), read its file and mutate.  An unreadable file raises and
is caught by the main loop, with the head already popped. -/
def mutation_fuzzing (st : FuzzerState) (rng : List ℚ) (e : SutEnv)
    (iter : ℕ) : StepRes :=
  match st.workQueue with
  | [] => ⟨st, rng, e, none⟩
  | before :: rest =>
    let st₁ := { st with workQueue := rest }
    match filesGet st₁.files before.test_file with
    | none => ⟨st₁, rng, e, none⟩
    | some content => fuzzer_mutate st₁ rng e iter (content.splitOn '\n') before

/-- Model of one provided-input entry of `Fuzzer.run_provided_inputs_phase`
(fuzzer.py lines 128-148): run the solver on the entry, and if it crashed
record it (key creation plus queue push for a new signature, then heap
push), copy the entry into the output directory and drop one dummy. -/
def provided_input_case (st : FuzzerState) (e : SutEnv) (name content : PyStr) :
    FuzzerState × SutEnv :=
  let pr := run_solver e
  let po := get_run_output pr.2.2.2 (joinPath TEST_OUTPUT_PATH name) pr.2.1
  match po.1 with
  | none => (st, po.2)
  | some ro =>
    let st₁ :=
      if ro.crash ∈ casesKeys st.interestingCases then st
      else { st with interestingCases := st.interestingCases ++ [(ro.crash, [])],
                     workQueue := st.workQueue ++ [ro] }
    let st₂ := { st₁ with interestingCases := casesPush st₁.interestingCases ro.crash ro }
    let st₃ := { st₂ with
      files := filesSet st₂.files (joinPath TEST_OUTPUT_PATH name) content }
    ({ st₃ with files := clean_dummy_files st₃.files }, po.2)

/-- One iteration of the main loop of `Fuzzer.start`: with the iteration
draw below 0.35 do generation fuzzing, otherwise mutation fuzzing. -/
def fuzz_iteration (st : FuzzerState) (rng : List ℚ) (e : SutEnv)
    (iter : ℕ) : StepRes :=
  let pu := randFloat rng
  if pu.1 < GENERATION_FUZZING_PROB then generation_fuzzing st pu.2 e iter
  else mutation_fuzzing st pu.2 e iter

/-- The per-iteration sequence of test-file contents written by `n`
iterations of the main loop. -/
def fuzz_trace : ℕ → ℕ → FuzzerState → List ℚ → SutEnv → List (Option PyStr)
  | 0, _, _, _, _ => []
  | n + 1, iter, st, rng, e =>
    let r := fuzz_iteration st rng e iter
    r.emit :: fuzz_trace n (iter + 1) r.st r.rng r.env

/-! ### Shutdown -/

/-- Pop from a heap's element list the first element of maximal coverage
(the element `PriorityQueue.get` returns for the `(-coverage, run_output)`
ordering). -/
def popMaxCov : List RunOutput → Option (RunOutput × List RunOutput)
  | [] => none
  | r :: rs =>
    match popMaxCov rs with
    | none => some (r, [])
    | some (m, rest) =>
      if m.coverage > r.coverage then some (m, r :: rest) else some (r, rs)

/-- Model of `Fuzzer.total_num_crashes`. -/
def total_num_crashes (c : List (ℕ × List RunOutput)) : ℕ :=
  (c.map (fun p => p.2.length)).sum

/-- The base name of a path (`pathlib.Path(p).name`). -/
def baseName (p : PyStr) : PyStr := (p.splitOn '/').getLastD []

/-- One `for` pass of the shutdown loop over `interesting_cases.items()`:
until `saved` reaches `to_save`, pop the best element of each nonempty heap
and record its file's base name. -/
def shutdown_pass (toSave : ℕ) :
    List (ℕ × List RunOutput) → ℕ → List (ℕ × List RunOutput) × List PyStr × ℕ
  | [], saved => ([], [], saved)
  | (k, h) :: rest, saved =>
    if saved = toSave then ((k, h) :: rest, [], saved)
    else
      match popMaxCov h with
      | none =>
        let r := shutdown_pass toSave rest saved
        ((k, h) :: r.1, r.2)
      | some (ro, h₂) =>
        let r := shutdown_pass toSave rest (saved + 1)
        ((k, h₂) :: r.1, baseName ro.test_file :: r.2.1, r.2.2)

/-- The `while saved < to_save` loop of `Fuzzer.shutdown`, fuel-indexed:
fuel `to_save` suffices because every pass below the quota pops at least one
element. -/
def shutdown_loop (toSave : ℕ) :
    ℕ → List (ℕ × List RunOutput) → ℕ → List PyStr
  | 0, _, _ => []
  | fuel + 1, cs, saved =>
    if saved < toSave then
      let r := shutdown_pass toSave cs saved
      r.2.1 ++ shutdown_loop toSave fuel r.1 r.2.2
    else []

/-- The `keep` list computed by `Fuzzer.shutdown`:
`to_save = min(MAX_SAVED_TESTS, total_num_crashes())` base names chosen
round-robin over the signatures, popping each heap's best element per
visit. -/
def shutdown_keep (st : FuzzerState) : List PyStr :=
  let toSave := min MAX_SAVED_TESTS (total_num_crashes st.interestingCases)
  shutdown_loop toSave toSave st.interestingCases 0

/-- Model of `Fuzzer.clean_files_on_shutdown`: the files surviving in the
output directory are exactly those whose name is in `keep`. -/
def clean_files_on_shutdown (keep : List PyStr) (dir : List PyStr) : List PyStr :=
  dir.filter (fun n => decide (n ∈ keep))

/-! ## Derived predicates and concrete instances -/

/-- The heap invariant: every `RunOutput` stored under a signature key has
that signature. -/
def HeapInv (c : List (ℕ × List RunOutput)) : Prop :=
  ∀ p ∈ c, ∀ ro ∈ p.2, ro.crash = p.1

instance decidableHeapInv (c : List (ℕ × List RunOutput)) : Decidable (HeapInv c) :=
  inferInstanceAs (Decidable (∀ p ∈ c, ∀ ro ∈ p.2, ro.crash = p.1))

/-- The base names of all test files currently stored in the heaps. -/
def heapNames (c : List (ℕ × List RunOutput)) : List PyStr :=
  c.flatMap (fun p => p.2.map (fun ro => baseName ro.test_file))

/-- A work-queue head for the mutation-path scenario: signature 1,
coverage 1. -/
def c1_before : RunOutput := ⟨"fuzzed-tests/a.cnf".toList, 1, "e".toList, 1⟩

/-- The run output the mutated input produces in the scenario: same
signature, strictly higher coverage. -/
def c1_after : RunOutput := ⟨"fuzzed-tests/crashing_test_7.cnf".toList, 1, "x".toList, 2⟩

/-- A fuzzer state whose work-queue head is `c1_before`, with its crash file
on disk. -/
def c1_state : FuzzerState :=
  ⟨[(1, [c1_before])], [c1_before],
   [("fuzzed-tests/a.cnf".toList, "p cnf 1 1\n1 0".toList)]⟩

/-- An environment whose next run reports signature 1 with coverage 2. -/
def c1_env : SutEnv := ⟨[[]], ["x".toList], [0], [2], fun _ => some 1⟩

/-- A concrete `MutationFile` for the `ByteMutator` boundary check. -/
def c4_mf : MutationFile := ⟨"p cnf 1 1".toList, some 1, some 1, 1, ["1 0".toList]⟩

/-! ## Theorems: RNG and string-helper facts -/

theorem qmul_eq (a b : ℚ) : qmul a b = a * b := by
  unfold qmul
  rw [Rat.mkRat_eq_divInt]
  push_cast
  rw [← Rat.divInt_mul_divInt' a.num a.den b.num b.den,
    Rat.num_divInt_den, Rat.num_divInt_den]

theorem qadd_eq (a b : ℚ) : qadd a b = a + b := by
  unfold qadd
  have ha : (a.den : ℤ) ≠ 0 := Int.natCast_ne_zero.mpr a.den_nz
  have hb : (b.den : ℤ) ≠ 0 := Int.natCast_ne_zero.mpr b.den_nz
  rw [Rat.mkRat_eq_divInt]
  push_cast
  rw [← Rat.divInt_add_divInt a.num b.num ha hb,
    Rat.num_divInt_den, Rat.num_divInt_den]

theorem qfloor_eq (a : ℚ) : qfloor a = ⌊a⌋ := by
  rw [Rat.floor_def]
  rfl

theorem randFloat_valid {s : List ℚ} (hs : ValidStream s) :
    0 ≤ (randFloat s).1 ∧ (randFloat s).1 < 1 ∧ ValidStream (randFloat s).2 := by
  cases s with
  | nil =>
    refine ⟨le_refl 0, ?_, hs⟩
    show (0 : ℚ) < 1
    norm_num
  | cons q t =>
    refine ⟨(hs q (List.mem_cons_self q t)).1, (hs q (List.mem_cons_self q t)).2, ?_⟩
    intro x hx
    exact hs x (List.mem_cons_of_mem q hx)

theorem randrange_bounds {a b : ℤ} {s : List ℚ} (hab : a < b) (hs : ValidStream s) :
    a ≤ (randrange a b s).1 ∧ (randrange a b s).1 < b := by
  obtain ⟨h0, h1, -⟩ := randFloat_valid hs
  have hlo : (0 : ℤ) ≤ ⌊(randFloat s).1 * ((b - a : ℤ) : ℚ)⌋ := by
    apply Int.le_floor.mpr
    push_cast
    exact mul_nonneg h0 (by exact_mod_cast sub_nonneg.mpr hab.le)
  have hhi : ⌊(randFloat s).1 * ((b - a : ℤ) : ℚ)⌋ < b - a := by
    apply Int.floor_lt.mpr
    have hba : (0 : ℚ) < ((b - a : ℤ) : ℚ) := by exact_mod_cast sub_pos.mpr hab
    calc (randFloat s).1 * ((b - a : ℤ) : ℚ)
        < 1 * ((b - a : ℤ) : ℚ) := by exact mul_lt_mul_of_pos_right h1 hba
      _ = ((b - a : ℤ) : ℚ) := one_mul _
  unfold randrange
  dsimp only
  rw [qmul_eq, qfloor_eq]
  constructor
  · omega
  · omega

theorem validStream_randFloat_snd {s : List ℚ} (hs : ValidStream s) :
    ValidStream (randFloat s).2 :=
  (randFloat_valid hs).2.2

/-- The digits accumulated by `natCharsAux` are decimal digit characters. -/
theorem mem_natCharsAux {fuel n : ℕ} {c : Char} (h : c ∈ natCharsAux fuel n) :
    ∃ d, d < 10 ∧ c = Char.ofNat (48 + d) := by
  induction fuel generalizing n with
  | zero => simp [natCharsAux] at h
  | succ fuel ih =>
    unfold natCharsAux at h
    by_cases hn : n < 10
    · rw [if_pos hn] at h
      simp at h
      exact ⟨n, hn, h⟩
    · rw [if_neg hn] at h
      rcases List.mem_append.mp h with h' | h'
      · exact ih h'
      · simp at h'
        exact ⟨n % 10, Nat.mod_lt _ (by norm_num), h'⟩

theorem digit_not_whitespace : ∀ d : ℕ, d < 10 →
    (Char.ofNat (48 + d)).isWhitespace = false := by decide

theorem natCharsAux_ne_nil (fuel n : ℕ) : natCharsAux (fuel + 1) n ≠ [] := by
  unfold natCharsAux
  by_cases hn : n < 10
  · simp [hn]
  · simp [hn]

/-- `str(z)` is nonempty and contains no whitespace. -/
theorem intChars_clean (z : ℤ) :
    intChars z ≠ [] ∧ ∀ c ∈ intChars z, c.isWhitespace = false := by
  unfold intChars
  by_cases hz : z < 0
  · rw [if_pos hz]
    refine ⟨by simp, ?_⟩
    intro c hc
    rcases List.mem_cons.mp hc with h | h
    · subst h; decide
    · obtain ⟨d, hd, rfl⟩ := mem_natCharsAux h
      exact digit_not_whitespace d hd
  · rw [if_neg hz]
    refine ⟨natCharsAux_ne_nil _ _, ?_⟩
    intro c hc
    obtain ⟨d, hd, rfl⟩ := mem_natCharsAux hc
    exact digit_not_whitespace d hd

/-- Every token produced by `pySplitWs` is nonempty and whitespace-free. -/
theorem pySplitWs_tokens_clean {s : PyStr} :
    ∀ t ∈ pySplitWs s, t ≠ [] ∧ ∀ c ∈ t, c.isWhitespace = false := by
  intro t ht
  unfold pySplitWs at ht
  rw [List.mem_filter] at ht
  obtain ⟨hmem, hne⟩ := ht
  constructor
  · intro hnil
    subst hnil
    simp at hne
  · have : ∀ (xs : List Char) (tok : List Char),
        tok ∈ xs.splitOnP (fun c => c.isWhitespace) →
        ∀ c ∈ tok, c.isWhitespace = false := by
      intro xs
      induction xs with
      | nil =>
        intro tok h c hc
        rw [List.splitOnP_nil] at h
        simp at h
        subst h
        simp at hc
      | cons x xs ih =>
        intro tok h c hc
        rw [List.splitOnP_cons] at h
        by_cases hp : x.isWhitespace
        · rw [if_pos (by simpa using hp)] at h
          rcases List.mem_cons.mp h with h' | h'
          · subst h'; simp at hc
          · exact ih tok h' c hc
        · rw [if_neg (by simpa using hp)] at h
          obtain ⟨y, ys, hys⟩ :=
            List.exists_cons_of_ne_nil (List.splitOnP_ne_nil (fun c => c.isWhitespace) xs)
          rw [hys] at h
          simp only [List.modifyHead] at h
          rcases List.mem_cons.mp h with h' | h'
          · subst h'
            rcases List.mem_cons.mp hc with hc' | hc'
            · subst hc'; simpa using hp
            · exact ih y (by rw [hys]; exact List.mem_cons_self y ys) c hc'
          · exact ih tok (by rw [hys]; exact List.mem_cons_of_mem y h') c hc
    exact this s t hmem

/-- Splitting a single-space join of nonempty whitespace-free tokens recovers
the tokens. -/
theorem pySplitWs_joinSpace {l : List PyStr}
    (h : ∀ t ∈ l, t ≠ [] ∧ ∀ c ∈ t, c.isWhitespace = false) :
    pySplitWs (joinSpace l) = l := by
  induction l with
  | nil => rfl
  | cons t ts ih =>
    cases ts with
    | nil =>
      obtain ⟨hne, hclean⟩ := h t (List.mem_cons_self t [])
      unfold pySplitWs joinSpace
      rw [List.splitOnP_eq_single]
      · simp [List.isEmpty_iff, hne]
      · intro x hx
        simp [hclean x hx]
    | cons u us =>
      obtain ⟨hne, hclean⟩ := h t (List.mem_cons_self t (u :: us))
      have hrest : ∀ t' ∈ u :: us, t' ≠ [] ∧ ∀ c ∈ t', c.isWhitespace = false := by
        intro t' ht'
        exact h t' (List.mem_cons_of_mem t ht')
      have step : joinSpace (t :: u :: us) = t ++ ' ' :: joinSpace (u :: us) := rfl
      unfold pySplitWs
      rw [step, List.splitOnP_first (fun c => c.isWhitespace) t
        (fun x hx => by simp [hclean x hx]) ' ' (by decide) (joinSpace (u :: us))]
      have := ih hrest
      unfold pySplitWs at this
      simp only [List.filter_cons]
      rw [this]
      simp [List.isEmpty_iff, hne]

/-! ## Claim C8: the header rewriter -/

/-- Claim C8: with the probability-0.85 rewrite path forced, on a header
with exactly 4 whitespace tokens `change_number_of_clauses(h, n)` yields a
header whose 4th token is `str(n)` and whose first three tokens are those of
`h`; on a header with any other token count it returns the header
unchanged. -/
theorem C8_change_number_of_clauses (h : PyStr) (n : ℤ) (s : List ℚ) :
    (¬ (randFloat s).1 < mkRat 3 20 → (pySplitWs h).length = 4 →
      pySplitWs (change_number_of_clauses h n s).1 =
        (pySplitWs h).take 3 ++ [intChars n])
    ∧ ((pySplitWs h).length ≠ 4 → (change_number_of_clauses h n s).1 = h) := by
  constructor
  · intro hu hlen
    unfold change_number_of_clauses
    dsimp only
    rw [if_neg hu, if_neg (by simp [hlen])]
    apply pySplitWs_joinSpace
    intro t ht
    rcases List.mem_append.mp ht with h' | h'
    · exact pySplitWs_tokens_clean t (List.take_subset 3 _ h')
    · simp only [List.mem_singleton] at h'
      subst h'
      exact intChars_clean n
  · intro hlen
    unfold change_number_of_clauses
    dsimp only
    by_cases hu : (randFloat s).1 < mkRat 3 20
    · rw [if_pos hu]
    · rw [if_neg hu, if_pos hlen]

/-- Witness for C8 at the concrete header `"p cnf 3 5"`, `n = 7`, draw 0.5. -/
theorem C8_witness :
    (¬ ((randFloat [mkRat 1 2]).1 < mkRat 3 20)) ∧
    (pySplitWs "p cnf 3 5".toList).length = 4 ∧
    pySplitWs (change_number_of_clauses "p cnf 3 5".toList 7 [mkRat 1 2]).1 =
      (pySplitWs "p cnf 3 5".toList).take 3 ++ [intChars 7] :=
  ⟨by decide, by decide,
   (C8_change_number_of_clauses "p cnf 3 5".toList 7 [mkRat 1 2]).1 (by decide) (by decide)⟩

/-! ## Claim C3: the InvalidSyntax trailing-zero probability -/

/-- Claim C3 counterexample.  The claim reads: the trailing `" 0"` is
omitted with probability 0.3, i.e. exactly when the per-clause draw is below
0.3.  With draws `[0, 1/5]` the clause length is 0 (draw 0) and the
per-clause flag draw is `1/5 < 0.3`, yet the generated clause is `" 0\n"` —
the `" 0"` is present, not omitted (the omitted form would be `"\n"`). -/
theorem C3_counterexample :
    mkRat 1 5 < mkRat 3 10 ∧
    get_random_clause_len [0, mkRat 1 5] = (0, [mkRat 1 5]) ∧
    (invalidSyntaxClauseStep 5 [0, mkRat 1 5]).1 = " 0\n".toList ∧
    " 0\n".toList ≠ ("\n".toList : PyStr) := by decide

/-- Claim C3 as amended: for each clause of the InvalidSyntax generator the
trailing `" 0"` is emitted exactly when the per-clause draw is below 0.3
(hence omitted with probability 0.7), the draw being taken per clause from
the seeded stream after the clause's length and atom draws. -/
theorem C3_trailing_zero (v : ℤ) (n : ℕ) (s s₁ s₂ s₃ : List ℚ)
    (len : ℕ) (a : List PyStr) (u : ℚ)
    (h₁ : get_random_clause_len s = (len, s₁))
    (h₂ : genClauseAtoms v len s₁ = (a, s₂))
    (h₃ : randFloat s₂ = (u, s₃)) :
    invalidSyntaxClausesLoop v (n + 1) s =
      (joinSpace a ++ (if u < mkRat 3 10 then " 0".toList else []) ++ ['\n'] ++
        (invalidSyntaxClausesLoop v n s₃).1,
       (invalidSyntaxClausesLoop v n s₃).2) := by
  have hstep : invalidSyntaxClauseStep v s =
      (joinSpace a ++ (if u < mkRat 3 10 then " 0".toList else []) ++ ['\n'], s₃) := by
    unfold invalidSyntaxClauseStep
    rw [h₁]
    dsimp only
    rw [h₂]
    dsimp only
    rw [h₃]
  show
    (let pc := invalidSyntaxClauseStep v s
     let pr := invalidSyntaxClausesLoop v n pc.2
     (pc.1 ++ pr.1, pr.2)) = _
  rw [hstep]

/-- Witness for C3 at `v = 5`, one clause, draws `[0, 1/5]`. -/
theorem C3_witness :
    get_random_clause_len [0, mkRat 1 5] = (0, [mkRat 1 5]) ∧
    genClauseAtoms 5 0 [mkRat 1 5] = ([], [mkRat 1 5]) ∧
    randFloat [mkRat 1 5] = (mkRat 1 5, []) ∧
    invalidSyntaxClausesLoop 5 1 [0, mkRat 1 5] =
      (joinSpace [] ++ (if mkRat 1 5 < mkRat 3 10 then " 0".toList else []) ++ ['\n'] ++
        (invalidSyntaxClausesLoop 5 0 []).1,
       (invalidSyntaxClausesLoop 5 0 []).2) :=
  ⟨by decide, by decide, by decide,
   C3_trailing_zero 5 0 [0, mkRat 1 5] [mkRat 1 5] [mkRat 1 5] [] 0 [] (mkRat 1 5)
     (by decide) (by decide) (by decide)⟩

/-! ## Claim C4: the ByteMutator header prefix -/

/-- Claim C4 counterexample.  The claim reads: the `ByteMutator` output
begins with the original header followed by `"\n"`.  With the concrete
mutation file `c4_mf` and draws that mutate no byte, the output is
`"p cnf 1 11 0"` — the header is not followed by a newline. -/
theorem C4_counterexample :
    ("p cnf 1 1\n".toList).isPrefixOf
      (byteMutatorMutate c4_mf [mkRat 1 2, mkRat 1 2, mkRat 1 2]).1 = false ∧
    (byteMutatorMutate c4_mf [mkRat 1 2, mkRat 1 2, mkRat 1 2]).1 = "p cnf 1 11 0".toList := by
  decide

/-- Claim C4 as amended: for every `MutationFile` and draw stream the
`ByteMutator` output is the original header directly followed by the
mutated body — no newline is inserted between them. -/
theorem C4_header_prefix (mf : MutationFile) (s : List ℚ) :
    ∃ body, (byteMutatorMutate mf s).1 = mf.header ++ body :=
  ⟨utf8DecodeIgnore (mutateBytes (utf8Encode (joinWith '\n' mf.lines)) s).1, rfl⟩

/-! ## Claim C5: the overflow branch of ValidSyntaxInvalidSemantics -/

/-- Claim C5 counterexample.  The claim reads: the overflow branch is taken
with probability 0.05, i.e. exactly when the branch draw is below 0.05, and
negative overflow values lie in the open interval `(-2^32, -2^31)`.  With
branch draw `7/100 ≥ 1/20` the declared variable count is nevertheless the
overflowed `2147483648 ∉ [3, 5000)`; and the negative branch can return
exactly `-2^32`, which the open interval excludes. -/
theorem C5_counterexample :
    mkRat 1 20 ≤ mkRat 7 100 ∧
    (vsisPickNumVars [0, mkRat 7 100, 0, 0]).1 = 2147483648 ∧
    ¬ ((3 : ℤ) ≤ 2147483648 ∧ (2147483648 : ℤ) < 5000) ∧
    (generate_overflowed_int [mkRat 4 5, 0]).1 = -4294967296 ∧
    ¬ (-(2^32 : ℤ) < -4294967296) := by decide

/-- Claim C5 as amended: the declared variable count takes the overflow
branch exactly when the branch draw is below 0.1 (probability 0.1; with
probability 0.9 it is the plain `[3, 5000)` draw); within the overflow
branch the positive case (draw below 0.75) yields a value in
`[2^31, 2^32)` and the negative case a value in `[-2^32, -2^31 - 1)`; and
every overflow-branch value lies outside the signed 32-bit range
`[-2^31, 2^31 - 1]`. -/
theorem C5_overflow_branch (s s₁ s₂ : List ℚ) (v₀ : ℤ) (u : ℚ)
    (hs : ValidStream s)
    (h₁ : generate_num_vars s = (v₀, s₁))
    (h₂ : randFloat s₁ = (u, s₂)) :
    ((mkRat 1 10 ≤ u → (vsisPickNumVars s).1 = v₀ ∧ 3 ≤ v₀ ∧ v₀ < 5000)
      ∧ (u < mkRat 1 10 → vsisPickNumVars s = generate_overflowed_int s₂))
    ∧ (∀ t, ValidStream t →
        ((randFloat t).1 < mkRat 3 4 →
          2^31 ≤ (generate_overflowed_int t).1 ∧
          (generate_overflowed_int t).1 < 2^32)
        ∧ (¬ (randFloat t).1 < mkRat 3 4 →
          -(2^32) ≤ (generate_overflowed_int t).1 ∧
          (generate_overflowed_int t).1 < -(2^31) - 1))
    ∧ (∀ t, ValidStream t →
        ¬ (-(2^31) ≤ (generate_overflowed_int t).1 ∧
          (generate_overflowed_int t).1 ≤ 2^31 - 1)) := by
  have hover : ∀ t, ValidStream t →
      ((randFloat t).1 < mkRat 3 4 →
        2^31 ≤ (generate_overflowed_int t).1 ∧
        (generate_overflowed_int t).1 < 2^32)
      ∧ (¬ (randFloat t).1 < mkRat 3 4 →
        -(2^32) ≤ (generate_overflowed_int t).1 ∧
        (generate_overflowed_int t).1 < -(2^31) - 1) := by
    intro t ht
    have htail : ValidStream (randFloat t).2 := validStream_randFloat_snd ht
    constructor
    · intro hu
      unfold generate_overflowed_int
      dsimp only
      rw [if_pos hu]
      have hb := randrange_bounds (a := 2147483648) (b := 4294967294)
        (by norm_num) htail
      constructor
      · have : (2^31 : ℤ) = 2147483648 := by norm_num
        omega
      · have : (2^32 : ℤ) = 4294967296 := by norm_num
        omega
    · intro hu
      unfold generate_overflowed_int
      dsimp only
      rw [if_neg hu]
      have hb := randrange_bounds (a := -4294967296) (b := -2147483649)
        (by norm_num) htail
      constructor
      · have : (-(2^32) : ℤ) = -4294967296 := by norm_num
        omega
      · have : (-(2^31) - 1 : ℤ) = -2147483649 := by norm_num
        omega
  refine ⟨?_, hover, ?_⟩
  · constructor
    · intro hu
      have hb := randrange_bounds (a := 3) (b := 5000) (by norm_num) hs
      have h₁' : randrange 3 5000 s = (v₀, s₁) := h₁
      rw [h₁'] at hb
      unfold vsisPickNumVars
      rw [h₁]
      dsimp only
      rw [h₂]
      dsimp only
      rw [if_neg (by exact not_lt.mpr hu)]
      exact ⟨rfl, hb.1, hb.2⟩
    · intro hu
      unfold vsisPickNumVars
      rw [h₁]
      dsimp only
      rw [h₂]
      dsimp only
      rw [if_pos hu]
  · intro t ht
    rintro ⟨hlo, hhi⟩
    rcases (hover t ht) with ⟨hpos, hneg⟩
    by_cases hu : (randFloat t).1 < mkRat 3 4
    · have := hpos hu
      have h31 : (2^31 : ℤ) ≤ 2^31 - 1 := le_trans this.1 hhi
      omega
    · have := hneg hu
      have : (generate_overflowed_int t).1 < -(2^31) - 1 := this.2
      omega

/-- Witness for C5 at the stream `[0, 1/2]` (plain branch: draw 0.5). -/
theorem C5_witness :
    ValidStream [0, mkRat 1 2] ∧
    generate_num_vars [0, mkRat 1 2] = (3, [mkRat 1 2]) ∧
    randFloat [mkRat 1 2] = (mkRat 1 2, []) ∧
    (mkRat 1 10 ≤ mkRat 1 2 →
      (vsisPickNumVars [0, mkRat 1 2]).1 = 3 ∧ (3 : ℤ) ≤ 3 ∧ (3 : ℤ) < 5000) :=
  ⟨by decide, by decide, by decide,
   ((C5_overflow_branch [0, mkRat 1 2] [mkRat 1 2] [] 3 (mkRat 1 2)
      (by decide) (by decide) (by decide)).1).1⟩

/-! ## Claim C6: deterministic replay -/

/-- Claim C6: two executions of the main loop with the same seed stream, the
same per-run SUT outputs (stdout / stderr / exit status), and the same
deterministic crash-analyzer and coverage-oracle responses produce identical
sequences of generated and mutated test-file contents, iteration by
iteration.  In the embedding all randomness is threaded from the single
seeded stream and every external effect is read from the environment, so the
trace is a pure function of these inputs. -/
theorem C6_deterministic_replay (n iter : ℕ) (st : FuzzerState) (rng : List ℚ)
    (e₁ e₂ : SutEnv)
    (h₁ : e₁.stdouts = e₂.stdouts) (h₂ : e₁.stderrs = e₂.stderrs)
    (h₃ : e₁.exits = e₂.exits) (h₄ : e₁.covs = e₂.covs)
    (h₅ : e₁.crashOf = e₂.crashOf) :
    fuzz_trace n iter st rng e₁ = fuzz_trace n iter st rng e₂ := by
  have he : e₁ = e₂ := by
    cases e₁
    cases e₂
    simp_all
  rw [he]

/-- Witness for C6: one iteration from the empty state under a concrete
environment. -/
theorem C6_witness :
    fuzz_trace 1 1 ⟨[], [], []⟩ [0] ⟨[[]], ["err".toList], [1], [5], fun _ => none⟩ =
      fuzz_trace 1 1 ⟨[], [], []⟩ [0] ⟨[[]], ["err".toList], [1], [5], fun _ => none⟩ :=
  C6_deterministic_replay 1 1 ⟨[], [], []⟩ [0]
    ⟨[[]], ["err".toList], [1], [5], fun _ => none⟩
    ⟨[[]], ["err".toList], [1], [5], fun _ => none⟩ rfl rfl rfl rfl rfl

/-! ## Claim C10: the keep decision always keeps something -/

theorem is_interesting_keeps (cases : List (ℕ × List RunOutput))
    (b a : RunOutput) :
    (is_interesting_mutation cases b a).1 = true ∨
      (is_interesting_mutation cases b a).2 = true := by
  unfold is_interesting_mutation
  split_ifs <;> simp

theorem mutateRecord_queue_growth (st : FuzzerState) (ro before : RunOutput) :
    st.workQueue.length + 1 ≤ (mutateRecord st ro before).workQueue.length := by
  obtain ⟨ic, wq, fs⟩ := st
  unfold mutateRecord
  by_cases hmem : ro.crash ∈ casesKeys ic
  · rw [if_pos hmem]
    dsimp only
    rcases is_interesting_keeps ic ro before with h | h <;>
      simp [h, List.length_append]
  · rw [if_neg hmem]
    dsimp only
    rcases is_interesting_keeps (ic ++ [(ro.crash, [])]) ro before with h | h <;>
      simp [h, List.length_append]

/-- Claim C10: `is_interesting_mutation` always returns at least one `true`
component, and consequently the crash-recording block of the mutation path
appends at least one element to the work queue. -/
theorem C10_at_least_one_kept :
    (∀ (cases : List (ℕ × List RunOutput)) (b a : RunOutput),
      (is_interesting_mutation cases b a).1 = true ∨
        (is_interesting_mutation cases b a).2 = true)
    ∧ (∀ (st : FuzzerState) (ro before : RunOutput),
      st.workQueue.length + 1 ≤ (mutateRecord st ro before).workQueue.length) :=
  ⟨is_interesting_keeps, mutateRecord_queue_growth⟩

/-! ## Claim C1: the same-signature higher-coverage mutation -/

/-- Claim C1 evaluated at a concrete failing input.  The work-queue head
`c1_before` (signature 1, coverage 1) is mutated; the run crashes with the
same signature and strictly higher coverage (`c1_after`, coverage 2).  The
claim (and the comments inside `is_interesting_mutation` itself) require the
new result to be enqueued and the prior dropped, but because `Fuzzer.mutate`
passes `(run_output, before)` to a function whose parameters are
`(before, after)`, the code does the opposite: the resulting work queue is
`[c1_before]` and `c1_after` is not enqueued. -/
theorem C1_swapped_keep_decision :
    (mutation_fuzzing c1_state [mkRat 9 10, mkRat 1 2, mkRat 1 2, mkRat 1 2]
      c1_env 7).st.workQueue = [c1_before] ∧
    (mutation_fuzzing c1_state [mkRat 9 10, mkRat 1 2, mkRat 1 2, mkRat 1 2]
      c1_env 7).st.interestingCases = [(1, [c1_before, c1_after])] ∧
    c1_after.crash = c1_before.crash ∧
    c1_after.coverage > c1_before.coverage ∧
    c1_after ∉ (mutation_fuzzing c1_state [mkRat 9 10, mkRat 1 2, mkRat 1 2, mkRat 1 2]
      c1_env 7).st.workQueue := by decide

/-! ## Claim C9: a non-crashing mutation drops the popped head -/

/-- Claim C9: in the mutation path, when the crash analyzer reports no crash
for the run's stderr (the head of the stderr stream), the popped work-queue
head is permanently dropped — the work queue is exactly the former tail —
and `interesting_cases` is unchanged. -/
theorem C9_no_crash_drops_head (st : FuzzerState) (rng : List ℚ) (e : SutEnv)
    (iter : ℕ) (before : RunOutput) (rest : List RunOutput)
    (hq : st.workQueue = before :: rest)
    (hcrash : e.crashOf (e.stderrs.headD []) = none) :
    (mutation_fuzzing st rng e iter).st.workQueue = rest ∧
    (mutation_fuzzing st rng e iter).st.interestingCases = st.interestingCases := by
  obtain ⟨ic, wq, fs⟩ := st
  subst hq
  unfold mutation_fuzzing
  dsimp only
  cases hfg : filesGet fs before.test_file with
  | none => exact ⟨rfl, rfl⟩
  | some content =>
    unfold fuzzer_mutate get_run_output run_solver
    dsimp only
    rw [hcrash]
    repeat' split
    all_goals first
      | exact ⟨rfl, rfl⟩
      | simp_all

/-- Witness for C9: a concrete one-element queue whose mutation run does not
crash. -/
theorem C9_witness :
    c1_state.workQueue = [c1_before] ∧
    (fun _ => (none : Option ℕ)) (["x".toList].headD []) = none ∧
    (mutation_fuzzing c1_state [mkRat 9 10, mkRat 1 2, mkRat 1 2, mkRat 1 2]
      ⟨[[]], ["x".toList], [0], [2], fun _ => none⟩ 7).st.workQueue = [] ∧
    (mutation_fuzzing c1_state [mkRat 9 10, mkRat 1 2, mkRat 1 2, mkRat 1 2]
      ⟨[[]], ["x".toList], [0], [2], fun _ => none⟩ 7).st.interestingCases =
      c1_state.interestingCases :=
  ⟨rfl, rfl,
   (C9_no_crash_drops_head c1_state [mkRat 9 10, mkRat 1 2, mkRat 1 2, mkRat 1 2]
     ⟨[[]], ["x".toList], [0], [2], fun _ => none⟩ 7 c1_before [] rfl rfl).1,
   (C9_no_crash_drops_head c1_state [mkRat 9 10, mkRat 1 2, mkRat 1 2, mkRat 1 2]
     ⟨[[]], ["x".toList], [0], [2], fun _ => none⟩ 7 c1_before [] rfl rfl).2⟩

/-! ## Claim C7: the heap signature invariant -/

theorem HeapInv_append_new {c : List (ℕ × List RunOutput)} {k : ℕ}
    (h : HeapInv c) : HeapInv (c ++ [(k, [])]) := by
  intro p hp ro hro
  rcases List.mem_append.mp hp with h' | h'
  · exact h p h' ro hro
  · simp only [List.mem_singleton] at h'
    subst h'
    simp at hro

theorem HeapInv_push {c : List (ℕ × List RunOutput)} {sig : ℕ} {ro : RunOutput}
    (h : HeapInv c) (hro : ro.crash = sig) : HeapInv (casesPush c sig ro) := by
  intro p hp ro' hro'
  unfold casesPush at hp
  rw [List.mem_map] at hp
  obtain ⟨q, hq, heq⟩ := hp
  by_cases hqs : q.1 = sig
  · rw [if_pos hqs] at heq
    subst heq
    rcases List.mem_append.mp hro' with h' | h'
    · exact h q hq ro' h'
    · simp only [List.mem_singleton] at h'
      subst h'
      rw [hro, hqs]
  · rw [if_neg hqs] at heq
    subst heq
    exact h q hq ro' hro'

theorem heapInv_provided (st : FuzzerState) (e : SutEnv) (name content : PyStr)
    (hinv : HeapInv st.interestingCases) :
    HeapInv (provided_input_case st e name content).1.interestingCases := by
  obtain ⟨ic, wq, fs⟩ := st
  unfold provided_input_case get_run_output run_solver
  dsimp only at hinv ⊢
  repeat' split
  all_goals dsimp only
  all_goals first
    | exact hinv
    | exact HeapInv_push hinv rfl
    | exact HeapInv_push (HeapInv_append_new hinv) rfl

theorem heapInv_generation (st : FuzzerState) (rng : List ℚ) (e : SutEnv)
    (iter : ℕ) (hinv : HeapInv st.interestingCases) :
    HeapInv (generation_fuzzing st rng e iter).st.interestingCases := by
  obtain ⟨ic, wq, fs⟩ := st
  unfold generation_fuzzing get_run_output run_solver
  dsimp only at hinv ⊢
  repeat' split
  all_goals dsimp only
  all_goals first
    | exact hinv
    | exact HeapInv_push hinv rfl
    | exact HeapInv_push (HeapInv_append_new hinv) rfl

theorem heapInv_mutation (st : FuzzerState) (rng : List ℚ) (e : SutEnv)
    (iter : ℕ) (hinv : HeapInv st.interestingCases) :
    HeapInv (mutation_fuzzing st rng e iter).st.interestingCases := by
  obtain ⟨ic, wq, fs⟩ := st
  unfold mutation_fuzzing fuzzer_mutate mutateRecord get_run_output run_solver
  dsimp only at hinv ⊢
  repeat' split
  all_goals dsimp only
  all_goals first
    | exact hinv
    | exact HeapInv_push hinv rfl
    | exact HeapInv_push (HeapInv_append_new hinv) rfl

/-- Claim C7: the invariant "every `RunOutput` stored in
`interesting_cases[k]` has signature `k`" is preserved by the provided-input
recording path, the generation recording path, and the mutation recording
path. -/
theorem C7_heap_signature_invariant (st : FuzzerState) (rng : List ℚ)
    (e : SutEnv) (iter : ℕ) (name content : PyStr)
    (hinv : HeapInv st.interestingCases) :
    HeapInv (provided_input_case st e name content).1.interestingCases ∧
    HeapInv (generation_fuzzing st rng e iter).st.interestingCases ∧
    HeapInv (mutation_fuzzing st rng e iter).st.interestingCases :=
  ⟨heapInv_provided st e name content hinv,
   heapInv_generation st rng e iter hinv,
   heapInv_mutation st rng e iter hinv⟩

/-- Witness for C7 at the concrete state `c1_state` and environment
`c1_env`. -/
theorem C7_witness :
    HeapInv c1_state.interestingCases ∧
    (HeapInv (provided_input_case c1_state c1_env "a.cnf".toList "p cnf 1 1\n1 0".toList).1.interestingCases ∧
     HeapInv (generation_fuzzing c1_state [0] c1_env 3).st.interestingCases ∧
     HeapInv (mutation_fuzzing c1_state [0] c1_env 3).st.interestingCases) :=
  ⟨by decide,
   C7_heap_signature_invariant c1_state [0] c1_env 3 "a.cnf".toList
     "p cnf 1 1\n1 0".toList (by decide)⟩

/-! ## Claim C2: shutdown selection and cleanup -/

theorem popMaxCov_eq_none {h : List RunOutput} : popMaxCov h = none ↔ h = [] := by
  constructor
  · intro he
    cases h with
    | nil => rfl
    | cons r rs =>
      unfold popMaxCov at he
      cases hm : popMaxCov rs with
      | none => rw [hm] at he; simp at he
      | some p =>
        obtain ⟨m, rest⟩ := p
        rw [hm] at he
        dsimp at he
        split at he <;> simp at he
  · intro he
    subst he
    rfl

theorem popMaxCov_perm {h h₂ : List RunOutput} {ro : RunOutput}
    (hp : popMaxCov h = some (ro, h₂)) : List.Perm (ro :: h₂) h := by
  induction h generalizing ro h₂ with
  | nil => simp [popMaxCov] at hp
  | cons r rs ih =>
    unfold popMaxCov at hp
    cases hm : popMaxCov rs with
    | none =>
      rw [hm] at hp
      simp at hp
      obtain ⟨rfl, rfl⟩ := hp
      have hrs : rs = [] := popMaxCov_eq_none.mp hm
      subst hrs
      exact List.Perm.refl _
    | some p =>
      obtain ⟨m, rest⟩ := p
      rw [hm] at hp
      dsimp at hp
      split at hp
      · simp at hp
        obtain ⟨rfl, rfl⟩ := hp
        have hperm := ih hm
        exact List.Perm.trans (List.Perm.swap r m rest) (List.Perm.cons r hperm)
      · simp at hp
        obtain ⟨rfl, rfl⟩ := hp
        exact List.Perm.refl _

theorem popMaxCov_length {h h₂ : List RunOutput} {ro : RunOutput}
    (hp : popMaxCov h = some (ro, h₂)) : h₂.length + 1 = h.length := by
  have := (popMaxCov_perm hp).length_eq
  simpa using this

theorem shutdown_pass_count (toSave : ℕ) (cs : List (ℕ × List RunOutput))
    (saved : ℕ) :
    (shutdown_pass toSave cs saved).2.2 =
      saved + (shutdown_pass toSave cs saved).2.1.length := by
  induction cs generalizing saved with
  | nil => simp [shutdown_pass]
  | cons p rest ih =>
    obtain ⟨k, h⟩ := p
    unfold shutdown_pass
    by_cases hst : saved = toSave
    · simp [hst]
    · rw [if_neg hst]
      cases hm : popMaxCov h with
      | none =>
        dsimp only
        exact ih saved
      | some q =>
        obtain ⟨ro, h₂⟩ := q
        dsimp only
        rw [ih (saved + 1)]
        simp
        omega

theorem shutdown_pass_le (toSave : ℕ) (cs : List (ℕ × List RunOutput))
    (saved : ℕ) (hle : saved ≤ toSave) :
    (shutdown_pass toSave cs saved).2.2 ≤ toSave := by
  induction cs generalizing saved with
  | nil => simpa [shutdown_pass] using hle
  | cons p rest ih =>
    obtain ⟨k, h⟩ := p
    unfold shutdown_pass
    by_cases hst : saved = toSave
    · simp [hst]
    · rw [if_neg hst]
      cases hm : popMaxCov h with
      | none =>
        dsimp only
        exact ih saved hle
      | some q =>
        obtain ⟨ro, h₂⟩ := q
        dsimp only
        exact ih (saved + 1) (by omega)

theorem shutdown_pass_total (toSave : ℕ) (cs : List (ℕ × List RunOutput))
    (saved : ℕ) :
    total_num_crashes (shutdown_pass toSave cs saved).1 +
      (shutdown_pass toSave cs saved).2.1.length = total_num_crashes cs := by
  induction cs generalizing saved with
  | nil => simp [shutdown_pass, total_num_crashes]
  | cons p rest ih =>
    obtain ⟨k, h⟩ := p
    unfold shutdown_pass
    by_cases hst : saved = toSave
    · simp [hst]
    · rw [if_neg hst]
      cases hm : popMaxCov h with
      | none =>
        dsimp only
        have := ih saved
        simp only [total_num_crashes, List.map_cons, List.sum_cons] at *
        omega
      | some q =>
        obtain ⟨ro, h₂⟩ := q
        dsimp only
        have hlen := popMaxCov_length hm
        have := ih (saved + 1)
        simp only [total_num_crashes, List.map_cons, List.sum_cons,
          List.length_cons] at *
        omega

theorem shutdown_pass_progress (toSave : ℕ) (cs : List (ℕ × List RunOutput))
    (saved : ℕ) (hlt : saved < toSave) (htot : 0 < total_num_crashes cs) :
    saved + 1 ≤ (shutdown_pass toSave cs saved).2.2 := by
  induction cs generalizing saved with
  | nil => simp [total_num_crashes] at htot
  | cons p rest ih =>
    obtain ⟨k, h⟩ := p
    unfold shutdown_pass
    rw [if_neg (by omega)]
    cases hm : popMaxCov h with
    | none =>
      dsimp only
      have hnil : h = [] := popMaxCov_eq_none.mp hm
      subst hnil
      have htot' : 0 < total_num_crashes rest := by
        simpa [total_num_crashes] using htot
      exact ih saved hlt htot'
    | some q =>
      obtain ⟨ro, h₂⟩ := q
      dsimp only
      have := shutdown_pass_count toSave rest (saved + 1)
      omega

theorem shutdown_pass_perm (toSave : ℕ) (cs : List (ℕ × List RunOutput))
    (saved : ℕ) :
    List.Perm
      (heapNames (shutdown_pass toSave cs saved).1 ++
        (shutdown_pass toSave cs saved).2.1)
      (heapNames cs) := by
  induction cs generalizing saved with
  | nil => simp [shutdown_pass]
  | cons p rest ih =>
    obtain ⟨k, h⟩ := p
    unfold shutdown_pass
    by_cases hst : saved = toSave
    · simp [hst]
    · rw [if_neg hst]
      cases hm : popMaxCov h with
      | none =>
        dsimp only
        simp only [heapNames, List.flatMap_cons, List.append_assoc]
        exact List.Perm.append_left _ (by simpa [heapNames] using ih saved)
      | some q =>
        obtain ⟨ro, h₂⟩ := q
        dsimp only
        have hpop := List.Perm.map (fun r => baseName r.test_file) (popMaxCov_perm hm)
        simp only [List.map_cons] at hpop
        have hih := ih (saved + 1)
        simp only [heapNames, List.flatMap_cons, List.append_assoc] at hih ⊢
        refine List.Perm.trans (List.Perm.append_left _ List.perm_middle) ?_
        refine List.Perm.trans
          (List.Perm.append_left _ (List.Perm.cons (baseName ro.test_file) hih)) ?_
        refine List.Perm.trans List.perm_middle ?_
        exact List.Perm.append_right _ hpop

theorem shutdown_loop_length (toSave : ℕ) :
    ∀ (fuel : ℕ) (cs : List (ℕ × List RunOutput)) (saved : ℕ),
      saved ≤ toSave → toSave ≤ saved + total_num_crashes cs →
      toSave ≤ saved + fuel →
      (shutdown_loop toSave fuel cs saved).length = toSave - saved := by
  intro fuel
  induction fuel with
  | zero =>
    intro cs saved h1 h2 h3
    unfold shutdown_loop
    simp
    omega
  | succ fuel ih =>
    intro cs saved h1 h2 h3
    unfold shutdown_loop
    by_cases hlt : saved < toSave
    · rw [if_pos hlt]
      dsimp only
      have hcount := shutdown_pass_count toSave cs saved
      have hle := shutdown_pass_le toSave cs saved h1
      have htotal := shutdown_pass_total toSave cs saved
      have hprog := shutdown_pass_progress toSave cs saved hlt (by omega)
      rw [List.length_append,
        ih (shutdown_pass toSave cs saved).1 (shutdown_pass toSave cs saved).2.2
          hle (by omega) (by omega)]
      omega
    · rw [if_neg hlt]
      simp
      omega

theorem shutdown_loop_subperm (toSave : ℕ) :
    ∀ (fuel : ℕ) (cs : List (ℕ × List RunOutput)) (saved : ℕ),
      ∃ rem, List.Perm (rem ++ shutdown_loop toSave fuel cs saved)
        (heapNames cs) := by
  intro fuel
  induction fuel with
  | zero =>
    intro cs saved
    exact ⟨heapNames cs, by simp [shutdown_loop]⟩
  | succ fuel ih =>
    intro cs saved
    unfold shutdown_loop
    by_cases hlt : saved < toSave
    · rw [if_pos hlt]
      dsimp only
      obtain ⟨rem, hrem⟩ :=
        ih (shutdown_pass toSave cs saved).1 (shutdown_pass toSave cs saved).2.2
      refine ⟨rem, ?_⟩
      have hp := shutdown_pass_perm toSave cs saved
      have step1 : List.Perm
          (rem ++ ((shutdown_pass toSave cs saved).2.1 ++
            shutdown_loop toSave fuel (shutdown_pass toSave cs saved).1
              (shutdown_pass toSave cs saved).2.2))
          ((shutdown_pass toSave cs saved).2.1 ++
            (rem ++ shutdown_loop toSave fuel (shutdown_pass toSave cs saved).1
              (shutdown_pass toSave cs saved).2.2)) := by
        rw [← List.append_assoc, ← List.append_assoc]
        exact List.Perm.append_right _ List.perm_append_comm
      refine step1.trans ?_
      refine (List.Perm.append_left _ hrem).trans ?_
      exact List.perm_append_comm.trans hp
    · rw [if_neg hlt]
      exact ⟨heapNames cs, by simp⟩

theorem shutdown_keep_length (st : FuzzerState) :
    (shutdown_keep st).length =
      min MAX_SAVED_TESTS (total_num_crashes st.interestingCases) := by
  unfold shutdown_keep
  dsimp only
  rw [shutdown_loop_length
    (min MAX_SAVED_TESTS (total_num_crashes st.interestingCases))
    (min MAX_SAVED_TESTS (total_num_crashes st.interestingCases))
    st.interestingCases 0 (by omega) (by omega) (by omega)]
  omega

theorem shutdown_keep_sub_nodup (st : FuzzerState)
    (H1 : (heapNames st.interestingCases).Nodup) :
    (shutdown_keep st).Nodup ∧
      ∀ n ∈ shutdown_keep st, n ∈ heapNames st.interestingCases := by
  unfold shutdown_keep
  dsimp only
  obtain ⟨rem, hrem⟩ := shutdown_loop_subperm
    (min MAX_SAVED_TESTS (total_num_crashes st.interestingCases))
    (min MAX_SAVED_TESTS (total_num_crashes st.interestingCases))
    st.interestingCases 0
  constructor
  · exact (hrem.nodup_iff.mpr H1).of_append_right
  · intro n hn
    exact hrem.mem_iff.mp (List.mem_append.mpr (Or.inr hn))

theorem filter_mem_length {keep dir : List PyStr}
    (hsub : ∀ n ∈ keep, n ∈ dir) (hk : keep.Nodup) (hd : dir.Nodup) :
    (dir.filter (fun n => decide (n ∈ keep))).length = keep.length := by
  have hfn : (dir.filter (fun n => decide (n ∈ keep))).Nodup := hd.filter _
  have hft : (dir.filter (fun n => decide (n ∈ keep))).toFinset = keep.toFinset := by
    ext x
    simp only [List.mem_toFinset, List.mem_filter, decide_eq_true_eq]
    constructor
    · exact fun h => h.2
    · exact fun h => ⟨hsub x h, h⟩
  rw [← List.toFinset_card_of_nodup hfn, ← List.toFinset_card_of_nodup hk, hft]

/-- Claim C2: on shutdown the fuzzer selects
`min(MAX_SAVED_TESTS, total crashes)` file names by round-robin over the
signatures, popping each heap's highest-coverage element per visit
(embodied in `shutdown_pass` / `shutdown_loop` / `popMaxCov`), and the
cleanup retains exactly that many files of the output directory, deleting
every other file.  Hypotheses: the stored test files have pairwise distinct
base names, each is present in the directory, and the directory listing has
no duplicates. -/
theorem C2_shutdown_retention (st : FuzzerState) (dir : List PyStr)
    (H1 : (heapNames st.interestingCases).Nodup)
    (H2 : ∀ n ∈ heapNames st.interestingCases, n ∈ dir)
    (H3 : dir.Nodup) :
    (shutdown_keep st).length =
      min MAX_SAVED_TESTS (total_num_crashes st.interestingCases) ∧
    (clean_files_on_shutdown (shutdown_keep st) dir).length =
      min MAX_SAVED_TESTS (total_num_crashes st.interestingCases) ∧
    ∀ n ∈ dir, n ∉ shutdown_keep st →
      n ∉ clean_files_on_shutdown (shutdown_keep st) dir := by
  obtain ⟨hnd, hsub⟩ := shutdown_keep_sub_nodup st H1
  refine ⟨shutdown_keep_length st, ?_, ?_⟩
  · unfold clean_files_on_shutdown
    rw [filter_mem_length (fun n hn => H2 n (hsub n hn)) hnd H3]
    exact shutdown_keep_length st
  · intro n _ hnk
    unfold clean_files_on_shutdown
    simp [List.mem_filter, hnk]

/-- Witness for C2: two signatures with one crash each; the shutdown keeps
both base names and the cleanup retains both directory entries. -/
theorem C2_witness :
    (heapNames (([(1, [⟨"fuzzed-tests/a.cnf".toList, 1, [], 3⟩]),
        (2, [⟨"fuzzed-tests/b.cnf".toList, 2, [], 4⟩])]) :
        List (ℕ × List RunOutput))).Nodup ∧
    (∀ n ∈ heapNames (([(1, [⟨"fuzzed-tests/a.cnf".toList, 1, [], 3⟩]),
        (2, [⟨"fuzzed-tests/b.cnf".toList, 2, [], 4⟩])]) :
        List (ℕ × List RunOutput)),
      n ∈ ["a.cnf".toList, "b.cnf".toList]) ∧
    (["a.cnf".toList, "b.cnf".toList] : List PyStr).Nodup ∧
    (clean_files_on_shutdown
      (shutdown_keep ⟨[(1, [⟨"fuzzed-tests/a.cnf".toList, 1, [], 3⟩]),
        (2, [⟨"fuzzed-tests/b.cnf".toList, 2, [], 4⟩])], [], []⟩)
      ["a.cnf".toList, "b.cnf".toList]).length =
      min MAX_SAVED_TESTS (total_num_crashes
        ([(1, [⟨"fuzzed-tests/a.cnf".toList, 1, [], 3⟩]),
          (2, [⟨"fuzzed-tests/b.cnf".toList, 2, [], 4⟩])])) :=
  ⟨by decide, by decide, by decide,
   (C2_shutdown_retention
     ⟨[(1, [⟨"fuzzed-tests/a.cnf".toList, 1, [], 3⟩]),
       (2, [⟨"fuzzed-tests/b.cnf".toList, 2, [], 4⟩])], [], []⟩
     ["a.cnf".toList, "b.cnf".toList]
     (by decide) (by decide) (by decide)).2.1⟩
